import Mathlib

/-!
Formal model of the outpatient queue and token subsystem of the
hsf-backend repository.

The model embeds, as pure Lean functions over explicit queue states:
  * `src/utils/tokenUtils.js` — `getDailyTokenNumber`, `generateOPDToken`;
  * `src/routes/queue.js` (source file `part_017`) — the queue mutations
    behind `POST /room/:roomNo/next-patient` (`nextPatient`),
    `POST /room/:roomNo/complete-appointment/:appointmentId`
    (`completeAppointment`), `POST /room/:roomNo/skip-patient/:patientIndex`
    (`skipPatient`), and `PUT /:roomNo/current-token` (`setCurrentToken`);
  * `src/routes/appointments.js` — the queue-admission fragment of
    `POST /` (`addPatientOnCreate`), `POST /:appointmentId/assign-token`
    (`assignToken`), and the queue-removal fragment of
    `DELETE /:appointmentId` (`removeOnDelete`);
  * `src/server.js` — the startup stale-entry sweep (`startupSweep`) and
    the midnight reset body (`midnightReset`).

Conventions of the embedding:
  * MongoDB ObjectIds are modelled as `Nat`; a queue entry's optional
    `appointmentId` is an `Option Nat`.
  * JavaScript `Date` values are modelled by `Timestamp` (a local calendar
    day plus milliseconds within that day); `setHours(0,0,0,0)` is
    `setMidnight`, which keeps the day and zeroes the time of day.
  * `currentPatientIndex` is an `Int`, because
    `Math.min(idx + 1, patients.length - 1)` produces `-1` on an empty
    queue.
  * A handler that answers an error status without saving the queue is a
    `Except.error` result (`notFound` for 404, `badRequest` for 400,
    `duplicateToken` for the 400 carrying the existing token); a thrown
    `TypeError` (reading or writing a property of `undefined`, answered
    as a 500 with the queue unsaved) is `Except.error typeError`.
  * Display-only entry fields (`patientNo`, `patientName`, `forceNo`,
    `patientId`) carry no queue logic and are omitted from the entry
    structure.
-/

namespace HSF

/-- A local wall-clock instant: calendar day and milliseconds within the
day.  Mirrors the JavaScript `Date` values used by the queue code. -/
structure Timestamp where
  day : Nat
  msOfDay : Nat
deriving DecidableEq, Repr

/-- JavaScript `d.setHours(0, 0, 0, 0)`: truncate a timestamp to its local midnight. -/
def setMidnight (t : Timestamp) : Timestamp :=
  { day := t.day, msOfDay := 0 }

/-- JavaScript `<=` on two `Date` values (millisecond order): earlier day,
or same day and no later within the day. -/
def tsLe (a b : Timestamp) : Bool :=
  decide (a.day < b.day) || (decide (a.day = b.day) && decide (a.msOfDay ≤ b.msOfDay))

/-- The `status` enum of the embedded queue-patient schema in
`src/models/Queue.js`. -/
inductive Status where
  | waiting
  | vitals_recorded
  | serving
  | completed
  | skipped
deriving DecidableEq, Repr

/-- One embedded entry of `Queue.patients` (`queuePatientSchema` in
`src/models/Queue.js`), restricted to the fields the queue logic reads or
writes. -/
structure QueuePatient where
  appointmentId : Option Nat
  tokenNo : String
  status : Status
  position : Nat
  createdAt : Timestamp
deriving DecidableEq, Repr

/-- A per-room queue document (`queueSchema` in `src/models/Queue.js`),
restricted to the fields the queue logic reads or writes. -/
structure Queue where
  roomNo : String
  currentToken : Option String
  currentPatientIndex : Int
  patients : List QueuePatient
deriving DecidableEq, Repr

/-- A freshly constructed queue document: `new Queue({..., patients: []})`
with the schema defaults `currentPatientIndex = 0` and no `currentToken`. -/
def newQueue (roomNo : String) : Queue :=
  { roomNo := roomNo, currentToken := none, currentPatientIndex := 0, patients := [] }

/-- The error outcomes of the queue handlers: 404, plain 400, the 400 of
`assign-token` that reports the existing token, and a thrown `TypeError`
(answered as 500, queue unsaved). -/
inductive QueueError where
  | notFound
  | badRequest
  | duplicateToken (tokenNo : String)
  | typeError
deriving DecidableEq, Repr

/-- In-place status assignment `patients[i].status = s`; out-of-range
indices leave the list unchanged. -/
def updateStatus : List QueuePatient → Nat → Status → List QueuePatient
  | [], _, _ => []
  | p :: ps, 0, s => { p with status := s } :: ps
  | p :: ps, n + 1, s => p :: updateStatus ps n s

/-- JavaScript `Array.prototype.findIndex`, with `none` for `-1`. -/
def findIndex (f : α → Bool) : List α → Option Nat
  | [] => none
  | a :: l => if f a then some 0 else (findIndex f l).map (· + 1)

/-- The first index `j ≥ start` whose element satisfies `f`; models
`findIndex((p, idx) => idx > i && f(p))` with `start = i + 1`. -/
def findFromIndex (f : α → Bool) : List α → Nat → Option Nat
  | [], _ => none
  | a :: l, 0 => if f a then some 0 else (findFromIndex f l 0).map (· + 1)
  | _ :: l, n + 1 => (findFromIndex f l n).map (· + 1)

/-- The `status` of `patients[i]`, when the index is in range. -/
def statusAt (l : List QueuePatient) (i : Nat) : Option Status :=
  (l[i]?).map QueuePatient.status

/-- Function `getDailyTokenNumber` from `src/utils/tokenUtils.js` (lines 5–22): `1`
for a missing or empty array, otherwise one more than the number of
entries whose `createdAt`, truncated to local midnight, equals today's
local midnight.  `now` is the wall clock read by `new Date()`. -/
def getDailyTokenNumber (now : Timestamp) (patientsArray : Option (List QueuePatient)) : Nat :=
  match patientsArray with
  | none => 1
  | some l =>
    if l.isEmpty then 1
    else (l.filter (fun p => decide (setMidnight p.createdAt = setMidnight now))).length + 1

/-- Function `generateOPDToken` from `src/utils/tokenUtils.js` (lines 24–26). -/
def generateOPDToken (roomNo : String) (dailyCounter : Nat) : String :=
  "T-" ++ roomNo ++ "-" ++ toString dailyCounter

/-- The cursor-advance half of the `next-patient` handler
(`src/routes/queue.js` lines 125–132): clamp the cursor to
`min(idx + 1, length - 1)` and, when an entry exists there, promote it to
`serving` and publish its token. -/
def advanceStep (q : Queue) : Queue :=
  let idx := min (q.currentPatientIndex + 1) ((q.patients.length : Int) - 1)
  if 0 ≤ idx then
    match q.patients[idx.toNat]? with
    | some nextP =>
      { q with patients := updateStatus q.patients idx.toNat Status.serving,
               currentToken := some nextP.tokenNo,
               currentPatientIndex := idx }
    | none => { q with currentPatientIndex := idx }
  else
    { q with currentPatientIndex := idx }

/-- Handler `POST /room/:roomNo/next-patient` (`src/routes/queue.js` lines
103–149), acting on the queue found for the room.  When
`currentPatientIndex < patients.length` the handler writes
`patients[currentPatientIndex].status = 'completed'`; if the index is
negative that write dereferences `undefined` and throws (`typeError`).
Then the cursor advances as in `advanceStep`. -/
def nextPatient (q : Queue) : Except QueueError Queue :=
  if q.currentPatientIndex < (q.patients.length : Int) then
    if 0 ≤ q.currentPatientIndex then
      Except.ok (advanceStep
        { q with patients := updateStatus q.patients q.currentPatientIndex.toNat Status.completed })
    else
      Except.error QueueError.typeError
  else
    Except.ok (advanceStep q)

/-- Handler `POST /room/:roomNo/complete-appointment/:appointmentId`
(`src/routes/queue.js` lines 152–201): locate the entry by appointment
(404 when absent), mark it `completed`, move the cursor to it, then
promote the first later `waiting` entry when one exists. -/
def completeAppointment (q : Queue) (appointmentId : Nat) : Except QueueError Queue :=
  match findIndex (fun p => decide (p.appointmentId = some appointmentId)) q.patients with
  | none => Except.error QueueError.notFound
  | some patientIndex =>
    let ps1 := updateStatus q.patients patientIndex Status.completed
    match findFromIndex (fun p => decide (p.status = Status.waiting)) ps1 (patientIndex + 1) with
    | some nextWaitingIndex =>
      Except.ok { q with patients := updateStatus ps1 nextWaitingIndex Status.serving,
                         currentToken := (ps1[nextWaitingIndex]?).map QueuePatient.tokenNo,
                         currentPatientIndex := (nextWaitingIndex : Int) }
    | none =>
      Except.ok { q with patients := ps1, currentPatientIndex := (patientIndex : Int) }

/-- Handler `POST /room/:roomNo/skip-patient/:patientIndex` (`src/routes/queue.js`
lines 204–225): 400 on an out-of-range index, otherwise set the entry to
`skipped` without moving the cursor. -/
def skipPatient (q : Queue) (index : Int) : Except QueueError Queue :=
  if index < 0 ∨ (q.patients.length : Int) ≤ index then
    Except.error QueueError.badRequest
  else
    Except.ok { q with patients := updateStatus q.patients index.toNat Status.skipped }

/-- Handler `PUT /:roomNo/current-token` (`src/routes/queue.js` lines 228–274):
locate the entry by token (404 when absent); when the cursor is `≠ -1` and
below the length, demote the cursor entry to `completed` if it is
`serving` (a cursor below `-1` would dereference `undefined` and throw);
finally promote the located entry and publish its token and index. -/
def setCurrentToken (q : Queue) (tokenNo : String) : Except QueueError Queue :=
  match findIndex (fun p => decide (p.tokenNo = tokenNo)) q.patients with
  | none => Except.error QueueError.notFound
  | some patientIndex =>
    if q.currentPatientIndex ≠ -1 ∧ q.currentPatientIndex < (q.patients.length : Int) then
      if 0 ≤ q.currentPatientIndex then
        let k := q.currentPatientIndex.toNat
        let ps1 :=
          if statusAt q.patients k = some Status.serving
          then updateStatus q.patients k Status.completed
          else q.patients
        Except.ok { q with patients := updateStatus ps1 patientIndex Status.serving,
                           currentToken := some tokenNo,
                           currentPatientIndex := (patientIndex : Int) }
      else
        Except.error QueueError.typeError
    else
      Except.ok { q with patients := updateStatus q.patients patientIndex Status.serving,
                         currentToken := some tokenNo,
                         currentPatientIndex := (patientIndex : Int) }

/-- The queue-admission fragment of `POST /` in
`src/routes/appointments.js` (lines 183–214): load or lazily create the
room's queue, compute the daily token, and append a `waiting` entry whose
`position` is the pre-push length and whose `createdAt` is now.  The
cursor and `currentToken` are not touched. -/
def addPatientOnCreate (queueOpt : Option Queue) (roomNo : String)
    (appointmentId : Nat) (now : Timestamp) : Queue :=
  let queue := queueOpt.getD (newQueue roomNo)
  let dailyTokenCounter := getDailyTokenNumber now (some queue.patients)
  let tokenNo := generateOPDToken roomNo dailyTokenCounter
  { queue with patients := queue.patients ++
      [{ appointmentId := some appointmentId, tokenNo := tokenNo,
         status := Status.waiting, position := queue.patients.length, createdAt := now }] }

/-- Handler `POST /:appointmentId/assign-token` in `src/routes/appointments.js`
(lines 486–563), queue part: load or lazily create the room's queue; 400
reporting the existing token when the appointment already has an entry;
otherwise append a `waiting` entry with token
`T-{room}-{patients.length + 1}` and, when it is the only entry, promote
it to `serving` with the cursor at 0. -/
def assignToken (queueOpt : Option Queue) (roomNo : String)
    (appointmentId : Nat) (now : Timestamp) : Except QueueError Queue :=
  let queue := queueOpt.getD (newQueue roomNo)
  match queue.patients.find? (fun p => decide (p.appointmentId = some appointmentId)) with
  | some existingPatient => Except.error (QueueError.duplicateToken existingPatient.tokenNo)
  | none =>
    let tokenNo := "T-" ++ roomNo ++ "-" ++ toString (queue.patients.length + 1)
    let ps := queue.patients ++
      [{ appointmentId := some appointmentId, tokenNo := tokenNo,
         status := Status.waiting, position := queue.patients.length, createdAt := now }]
    if ps.length = 1 then
      Except.ok { queue with patients := updateStatus ps 0 Status.serving,
                             currentToken := some tokenNo, currentPatientIndex := 0 }
    else
      Except.ok { queue with patients := ps }

/-- The queue-removal fragment of `DELETE /:appointmentId` in
`src/routes/appointments.js` (lines 418–453): splice out the entry
matching the appointment (`none` when absent — the queue is not saved and
the outer deletion continues); when the head was removed and entries
remain, promote the new head; when no entries remain, clear the token and
reset the cursor. -/
def removeOnDelete (q : Queue) (appointmentId : Nat) : Option Queue :=
  match findIndex (fun p => decide (p.appointmentId = some appointmentId)) q.patients with
  | none => none
  | some patientIndex =>
    let ps := q.patients.eraseIdx patientIndex
    if patientIndex = 0 ∧ 0 < ps.length then
      match ps[0]? with
      | some nextP =>
        some { q with patients := updateStatus ps 0 Status.serving,
                      currentToken := some nextP.tokenNo, currentPatientIndex := 0 }
      | none => some { q with patients := ps }
    else if ps.length = 0 then
      some { q with patients := ps, currentToken := none, currentPatientIndex := 0 }
    else
      some { q with patients := ps }

/-- The per-queue body of the startup stale-entry sweep in `src/server.js`
(lines 95–113): keep only entries created at or after today's local
midnight; when something was removed and nothing remains, clear the token
and reset the cursor; when nothing was removed the document is not saved. -/
def startupSweep (q : Queue) (todayStart : Timestamp) : Queue :=
  let ps := q.patients.filter (fun p => tsLe todayStart p.createdAt)
  let removed := q.patients.length - ps.length
  if 0 < removed then
    if ps.length = 0 then
      { q with patients := ps, currentToken := none, currentPatientIndex := 0 }
    else
      { q with patients := ps }
  else q

/-- The per-queue body of the midnight timer in `src/server.js` (lines
138–146): a queue with entries is cleared to an empty list, a null token
and cursor 0; a queue with no entries is not saved. -/
def midnightReset (q : Queue) : Queue :=
  if 0 < q.patients.length then
    { q with patients := [], currentToken := none, currentPatientIndex := 0 }
  else q

/-- Number of entries in `serving` state. -/
def servingCount (l : List QueuePatient) : Nat :=
  (l.filter (fun p => decide (p.status = Status.serving))).length

/-- Every `serving` entry sits at (integer) position `k`. -/
def servingOnlyAt (l : List QueuePatient) (k : Int) : Prop :=
  ∀ (j : Nat) (p : QueuePatient), l[j]? = some p → p.status = Status.serving → (j : Int) = k

instance (l : List QueuePatient) (k : Int) : Decidable (servingOnlyAt l k) :=
  decidable_of_iff (∀ j : Fin l.length, (l.get j).status = Status.serving → ((j : Nat) : Int) = k)
    (by
      unfold servingOnlyAt
      constructor
      · intro h j p hj hs
        have hjl : j < l.length := by
          by_contra hge
          rw [List.getElem?_eq_none (Nat.le_of_not_lt hge)] at hj
          cases hj
        have hg : l[j]? = some (l.get ⟨j, hjl⟩) := by
          rw [List.getElem?_eq_getElem hjl, List.get_eq_getElem]
        rw [hg] at hj
        injection hj with hj
        exact h ⟨j, hjl⟩ (by rw [hj]; exact hs)
      · intro h j hs
        exact h j.val (l.get j) (by rw [List.getElem?_eq_getElem j.isLt, List.get_eq_getElem]) hs)

/-- The cursor invariant of the spec: the cursor is a valid index, or the
queue is empty with a null token. -/
def cursorInvariant (q : Queue) : Prop :=
  (0 ≤ q.currentPatientIndex ∧ q.currentPatientIndex < (q.patients.length : Int)) ∨
    (q.patients = [] ∧ q.currentToken = none)

instance (q : Queue) : Decidable (cursorInvariant q) := by
  unfold cursorInvariant; exact inferInstance

/-- A concrete queue entry used to instantiate theorems with hypotheses:
appointment 1, token `T-1-1`, currently serving. -/
def exEntry1 : QueuePatient :=
  { appointmentId := some 1, tokenNo := "T-1-1", status := Status.serving,
    position := 0, createdAt := ⟨0, 0⟩ }

/-- A concrete one-entry queue used to instantiate theorems with
hypotheses. -/
def exQueue1 : Queue :=
  { roomNo := "1", currentToken := some "T-1-1", currentPatientIndex := 0,
    patients := [exEntry1] }

/-! ### Basic facts about the list helpers -/

theorem length_updateStatus (l : List QueuePatient) (i : Nat) (s : Status) :
    (updateStatus l i s).length = l.length := by
  induction l generalizing i with
  | nil => rfl
  | cons p ps ih =>
    cases i with
    | zero => rfl
    | succ n => simpa [updateStatus] using ih n

theorem getElem?_updateStatus_self (l : List QueuePatient) (i : Nat) (s : Status) :
    (updateStatus l i s)[i]? = (l[i]?).map (fun p => { p with status := s }) := by
  induction l generalizing i with
  | nil => simp [updateStatus]
  | cons p ps ih =>
    cases i with
    | zero => simp [updateStatus]
    | succ n => simpa [updateStatus] using ih n

theorem getElem?_updateStatus_ne (l : List QueuePatient) (i : Nat) (s : Status)
    (j : Nat) (h : j ≠ i) : (updateStatus l i s)[j]? = l[j]? := by
  induction l generalizing i j with
  | nil => simp [updateStatus]
  | cons p ps ih =>
    cases i with
    | zero =>
      cases j with
      | zero => exact absurd rfl h
      | succ m => simp [updateStatus]
    | succ n =>
      cases j with
      | zero => simp [updateStatus]
      | succ m =>
        simpa [updateStatus] using ih n m (fun hc => h (by omega))

theorem updateStatus_updateStatus (l : List QueuePatient) (i : Nat) (s s' : Status) :
    updateStatus (updateStatus l i s) i s' = updateStatus l i s' := by
  induction l generalizing i with
  | nil => rfl
  | cons p ps ih =>
    cases i with
    | zero => rfl
    | succ n => simpa [updateStatus] using ih n

theorem lt_of_getElem?_some {α : Type} {l : List α} {n : Nat} {a : α}
    (h : l[n]? = some a) : n < l.length := by
  by_contra hge
  rw [List.getElem?_eq_none (Nat.le_of_not_lt hge)] at h
  cases h

theorem mem_of_getElem?_some {α : Type} {l : List α} {n : Nat} {a : α}
    (h : l[n]? = some a) : a ∈ l := by
  induction l generalizing n with
  | nil => rw [List.getElem?_nil] at h; cases h
  | cons b t ih =>
    cases n with
    | zero =>
      rw [List.getElem?_cons_zero] at h
      injection h with h
      rw [← h]
      exact List.mem_cons_self b t
    | succ m =>
      rw [List.getElem?_cons_succ] at h
      exact List.mem_cons_of_mem b (ih h)

theorem servingCount_nil : servingCount [] = 0 := rfl

theorem servingCount_cons (p : QueuePatient) (l : List QueuePatient) :
    servingCount (p :: l) =
      (if p.status = Status.serving then 1 else 0) + servingCount l := by
  by_cases h : p.status = Status.serving <;>
    simp [servingCount, List.filter_cons, h, Nat.add_comm]

theorem servingCount_append (l l' : List QueuePatient) :
    servingCount (l ++ l') = servingCount l + servingCount l' := by
  simp [servingCount, List.filter_append]

theorem servingCount_eq_zero (l : List QueuePatient)
    (h : ∀ (j : Nat) (p : QueuePatient), l[j]? = some p → p.status ≠ Status.serving) :
    servingCount l = 0 := by
  induction l with
  | nil => rfl
  | cons p ps ih =>
    rw [servingCount_cons, if_neg (h 0 p (by simp) ), Nat.zero_add]
    exact ih (fun j q hj => h (j + 1) q (by simpa using hj))

theorem servingCount_le_one_of_only (l : List QueuePatient) (k : Int)
    (h : servingOnlyAt l k) : servingCount l ≤ 1 := by
  induction l generalizing k with
  | nil => simp [servingCount]
  | cons p ps ih =>
    rw [servingCount_cons]
    by_cases hp : p.status = Status.serving
    · rw [if_pos hp]
      have hk : ((0 : Nat) : Int) = k := h 0 p (by simp) hp
      have h0 : servingCount ps = 0 := by
        apply servingCount_eq_zero
        intro j q hj hq
        have := h (j + 1) q (by simpa using hj) hq
        omega
      omega
    · rw [if_neg hp]
      have := ih (k - 1) (fun j q hj hq => by
        have := h (j + 1) q (by simpa using hj) hq
        omega)
      omega

theorem servingCount_updateStatus_serving_le (l : List QueuePatient) (i : Nat) :
    servingCount (updateStatus l i Status.serving) ≤ servingCount l + 1 := by
  induction l generalizing i with
  | nil => simp [updateStatus, servingCount]
  | cons p ps ih =>
    cases i with
    | zero =>
      rw [updateStatus, servingCount_cons, servingCount_cons]
      have : ({ p with status := Status.serving } : QueuePatient).status = Status.serving := rfl
      rw [if_pos this]
      split <;> omega
    | succ n =>
      rw [updateStatus, servingCount_cons, servingCount_cons]
      have := ih n
      omega

theorem servingCount_updateStatus_nonserving (l : List QueuePatient) (i : Nat)
    (s : Status) (hs : s ≠ Status.serving) :
    servingCount (updateStatus l i s) ≤ servingCount l := by
  induction l generalizing i with
  | nil => simp [updateStatus]
  | cons p ps ih =>
    cases i with
    | zero =>
      rw [updateStatus, servingCount_cons, servingCount_cons]
      have : ({ p with status := s } : QueuePatient).status = s := rfl
      rw [this, if_neg hs]
      split <;> omega
    | succ n =>
      rw [updateStatus, servingCount_cons, servingCount_cons]
      have := ih n
      omega

theorem servingCount_mark_completed (l : List QueuePatient) (k : Int)
    (hk : 0 ≤ k) (h : servingOnlyAt l k) :
    servingCount (updateStatus l k.toNat Status.completed) = 0 := by
  apply servingCount_eq_zero
  intro j p hj hp
  by_cases hji : j = k.toNat
  · rw [hji, getElem?_updateStatus_self] at hj
    cases hl : l[k.toNat]? with
    | none => rw [hl] at hj; cases hj
    | some q =>
      rw [hl] at hj
      injection hj with hj
      rw [← hj] at hp
      exact absurd hp (by simp)
  · rw [getElem?_updateStatus_ne _ _ _ _ hji] at hj
    have := h j p hj hp
    omega

theorem servingCount_eq_zero_of_only_out (l : List QueuePatient) (k : Int)
    (h : servingOnlyAt l k) (hk : (l.length : Int) ≤ k ∨ k < 0) :
    servingCount l = 0 := by
  apply servingCount_eq_zero
  intro j p hj hp
  have hjk := h j p hj hp
  have hjl : j < l.length := by
    by_contra hge
    rw [List.getElem?_eq_none (Nat.le_of_not_lt hge)] at hj
    cases hj
  omega

theorem eraseIdx_eq_take_drop (l : List QueuePatient) (i : Nat) :
    l.eraseIdx i = l.take i ++ l.drop (i + 1) := by
  induction l generalizing i with
  | nil => simp [List.eraseIdx]
  | cons a l ih =>
    cases i with
    | zero => simp [List.eraseIdx]
    | succ n => simp [List.eraseIdx, ih]

theorem length_eraseIdx_of_lt (l : List QueuePatient) (i : Nat) (h : i < l.length) :
    (l.eraseIdx i).length = l.length - 1 := by
  rw [eraseIdx_eq_take_drop, List.length_append, List.length_take, List.length_drop]
  omega

theorem servingCount_eraseIdx_le (l : List QueuePatient) (i : Nat) :
    servingCount (l.eraseIdx i) ≤ servingCount l := by
  induction l generalizing i with
  | nil => simp [List.eraseIdx]
  | cons a l ih =>
    cases i with
    | zero =>
      rw [List.eraseIdx, servingCount_cons]
      split <;> omega
    | succ n =>
      rw [List.eraseIdx, servingCount_cons, servingCount_cons]
      have := ih n
      omega

theorem servingCount_filter_le (f : QueuePatient → Bool) (l : List QueuePatient) :
    servingCount (l.filter f) ≤ servingCount l := by
  induction l with
  | nil => simp
  | cons a l ih =>
    rw [List.filter_cons]
    by_cases hf : f a
    · rw [if_pos hf, servingCount_cons, servingCount_cons]
      omega
    · rw [if_neg hf, servingCount_cons]
      omega

theorem findIndex_some_spec {α : Type} (f : α → Bool) (l : List α) (j : Nat)
    (h : findIndex f l = some j) : ∃ a, l[j]? = some a ∧ f a = true := by
  induction l generalizing j with
  | nil => cases h
  | cons a l ih =>
    rw [findIndex] at h
    by_cases hf : f a
    · rw [if_pos hf] at h
      injection h with h
      subst h
      exact ⟨a, by simp, hf⟩
    · rw [if_neg hf] at h
      cases hm : findIndex f l with
      | none => rw [hm] at h; cases h
      | some j' =>
        rw [hm] at h
        simp only [Option.map_some'] at h
        injection h with h
        obtain ⟨b, hb, hfb⟩ := ih j' hm
        exact ⟨b, by rw [← h]; simpa using hb, hfb⟩

theorem findIndex_some_lt {α : Type} (f : α → Bool) (l : List α) (j : Nat)
    (h : findIndex f l = some j) : j < l.length := by
  obtain ⟨a, ha, _⟩ := findIndex_some_spec f l j h
  by_contra hge
  rw [List.getElem?_eq_none (Nat.le_of_not_lt hge)] at ha
  cases ha

theorem findIndex_eq_none_iff {α : Type} (f : α → Bool) (l : List α) :
    findIndex f l = none ↔ ∀ a ∈ l, f a = false := by
  induction l with
  | nil => simp [findIndex]
  | cons a l ih =>
    rw [findIndex]
    by_cases hf : f a
    · simp [hf]
    · simp only [if_neg hf, Option.map_eq_none', ih, List.mem_cons]
      constructor
      · intro h b hb
        rcases hb with hb | hb
        · subst hb; exact Bool.eq_false_iff.2 hf
        · exact h b hb
      · intro h b hb
        exact h b (Or.inr hb)

theorem findFromIndex_some_spec {α : Type} (f : α → Bool) (l : List α) (s j : Nat)
    (h : findFromIndex f l s = some j) :
    s ≤ j ∧ ∃ a, l[j]? = some a ∧ f a = true := by
  induction l generalizing s j with
  | nil => cases h
  | cons a l ih =>
    cases s with
    | zero =>
      rw [findFromIndex] at h
      by_cases hf : f a
      · rw [if_pos hf] at h
        injection h with h
        subst h
        exact ⟨Nat.le_refl 0, a, by simp, hf⟩
      · rw [if_neg hf] at h
        cases hm : findFromIndex f l 0 with
        | none => rw [hm] at h; cases h
        | some j' =>
          rw [hm] at h
          simp only [Option.map_some'] at h
          injection h with h
          obtain ⟨_, b, hb, hfb⟩ := ih 0 j' hm
          exact ⟨Nat.zero_le _, b, by rw [← h]; simpa using hb, hfb⟩
    | succ n =>
      rw [findFromIndex] at h
      cases hm : findFromIndex f l n with
      | none => rw [hm] at h; cases h
      | some j' =>
        rw [hm] at h
        simp only [Option.map_some'] at h
        injection h with h
        obtain ⟨hs, b, hb, hfb⟩ := ih n j' hm
        refine ⟨by omega, b, by rw [← h]; simpa using hb, hfb⟩

theorem findFromIndex_none_spec {α : Type} (f : α → Bool) (l : List α) (s : Nat)
    (h : findFromIndex f l s = none) :
    ∀ (j : Nat) (a : α), s ≤ j → l[j]? = some a → f a = false := by
  induction l generalizing s with
  | nil => intro j a _ ha; rw [List.getElem?_nil] at ha; cases ha
  | cons b l ih =>
    cases s with
    | zero =>
      rw [findFromIndex] at h
      by_cases hf : f b
      · rw [if_pos hf] at h; cases h
      · rw [if_neg hf] at h
        rw [Option.map_eq_none'] at h
        intro j a _ ha
        cases j with
        | zero =>
          rw [List.getElem?_cons_zero] at ha
          injection ha with ha
          rw [← ha]
          exact Bool.eq_false_iff.2 hf
        | succ m =>
          rw [List.getElem?_cons_succ] at ha
          exact ih 0 h m a (Nat.zero_le m) ha
    | succ n =>
      rw [findFromIndex, Option.map_eq_none'] at h
      intro j a hj ha
      cases j with
      | zero => omega
      | succ m =>
        rw [List.getElem?_cons_succ] at ha
        exact ih n h m a (by omega) ha

theorem findFromIndex_eq_some_of {α : Type} (f : α → Bool) (l : List α) (s j : Nat)
    (a : α) (hsj : s ≤ j) (ha : l[j]? = some a) (hfa : f a = true)
    (hfirst : ∀ (k : Nat) (b : α), s ≤ k → k < j → l[k]? = some b → f b = false) :
    findFromIndex f l s = some j := by
  induction l generalizing s j with
  | nil => rw [List.getElem?_nil] at ha; cases ha
  | cons c l ih =>
    cases s with
    | zero =>
      cases j with
      | zero =>
        rw [List.getElem?_cons_zero] at ha
        injection ha with ha
        subst ha
        rw [findFromIndex, if_pos hfa]
      | succ m =>
        have hc : f c = false := hfirst 0 c (Nat.le_refl 0) (Nat.succ_pos m) (by simp)
        rw [findFromIndex, if_neg (by rw [hc]; exact Bool.false_ne_true)]
        rw [List.getElem?_cons_succ] at ha
        rw [ih 0 m (Nat.zero_le m) ha
          (fun k b _ hk hb => hfirst (k + 1) b (Nat.zero_le _) (by omega) (by simpa using hb))]
        rfl
    | succ n =>
      cases j with
      | zero => omega
      | succ m =>
        rw [findFromIndex]
        rw [List.getElem?_cons_succ] at ha
        rw [ih n m (by omega) ha
          (fun k b hk hkm hb => hfirst (k + 1) b (by omega) (by omega) (by simpa using hb))]
        rfl

theorem findFromIndex_first {α : Type} (f : α → Bool) (l : List α) (s j : Nat)
    (h : findFromIndex f l s = some j) :
    ∀ (k : Nat) (b : α), s ≤ k → k < j → l[k]? = some b → f b = false := by
  induction l generalizing s j with
  | nil => cases h
  | cons a l ih =>
    cases s with
    | zero =>
      rw [findFromIndex] at h
      by_cases hf : f a
      · rw [if_pos hf] at h
        injection h with h
        intro k b _ hk
        omega
      · rw [if_neg hf] at h
        cases hm : findFromIndex f l 0 with
        | none => rw [hm] at h; cases h
        | some j' =>
          rw [hm] at h
          simp only [Option.map_some'] at h
          injection h with h
          intro k b _ hk hb
          cases k with
          | zero =>
            rw [List.getElem?_cons_zero] at hb
            injection hb with hb
            rw [← hb]
            exact Bool.eq_false_iff.2 hf
          | succ m =>
            rw [List.getElem?_cons_succ] at hb
            exact ih 0 j' hm m b (Nat.zero_le m) (by omega) hb
    | succ n =>
      rw [findFromIndex] at h
      cases hm : findFromIndex f l n with
      | none => rw [hm] at h; cases h
      | some j' =>
        rw [hm] at h
        simp only [Option.map_some'] at h
        injection h with h
        intro k b hk hkj hb
        cases k with
        | zero => omega
        | succ m =>
          rw [List.getElem?_cons_succ] at hb
          exact ih n j' hm m b (by omega) (by omega) hb

theorem advanceStep_eq (q : Queue) (p : QueuePatient)
    (h0min : 0 ≤ min (q.currentPatientIndex + 1) ((q.patients.length : Int) - 1))
    (hp : q.patients[(min (q.currentPatientIndex + 1)
        ((q.patients.length : Int) - 1)).toNat]? = some p) :
    advanceStep q = { q with
      patients := updateStatus q.patients
        (min (q.currentPatientIndex + 1) ((q.patients.length : Int) - 1)).toNat
        Status.serving,
      currentToken := some p.tokenNo,
      currentPatientIndex := min (q.currentPatientIndex + 1)
        ((q.patients.length : Int) - 1) } := by
  unfold advanceStep
  dsimp only
  rw [if_pos h0min, hp]

theorem servingCount_singleton_nonserving (e : QueuePatient)
    (he : e.status ≠ Status.serving) : servingCount [e] = 0 := by
  rw [servingCount_cons, if_neg he, servingCount_nil]

theorem servingCount_advanceStep_le (qq : Queue) :
    servingCount (advanceStep qq).patients ≤ servingCount qq.patients + 1 := by
  unfold advanceStep
  dsimp only
  split
  · split
    · exact servingCount_updateStatus_serving_le _ _
    · exact Nat.le_succ _
  · exact Nat.le_succ _

/-! ### Claim theorems -/

/-- C3: for every room and entry list, the generated token is
`T-{room}-{c}` where `c` is the number of entries whose `createdAt`,
truncated to local midnight, equals today's local midnight, plus 1; a
missing or empty entry list yields counter 1.  Purity holds by
construction: `getDailyTokenNumber` and `generateOPDToken` are pure
functions of their arguments (the source performs no storage access and
builds fresh `Date` objects instead of mutating its inputs). -/
theorem c3_daily_token_count (room : String) (now : Timestamp)
    (entries : Option (List QueuePatient)) :
    getDailyTokenNumber now entries =
      ((entries.getD []).filter
        (fun p => decide (setMidnight p.createdAt = setMidnight now))).length + 1
    ∧ generateOPDToken room (getDailyTokenNumber now entries) =
        "T-" ++ room ++ "-" ++ toString (getDailyTokenNumber now entries)
    ∧ getDailyTokenNumber now none = 1
    ∧ getDailyTokenNumber now (some []) = 1 := by
  refine ⟨?_, rfl, rfl, rfl⟩
  cases entries with
  | none => simp [getDailyTokenNumber]
  | some l =>
    cases l with
    | nil => simp [getDailyTokenNumber]
    | cons p ps => simp [getDailyTokenNumber]

/-- C4 counterexample: admitting appointment 1 into room 1's empty (newly
created) queue through the appointment-creation path leaves the created
entry in state `waiting` — not `serving` — and leaves `currentToken`
unset, although the entry does get token `T-1-1`.  The claim asserts
state `serving` and a set `currentToken` for this admission path. -/
theorem c4_counterexample :
    (addPatientOnCreate none "1" 1 ⟨0, 0⟩).patients.map QueuePatient.status = [Status.waiting]
    ∧ (addPatientOnCreate none "1" 1 ⟨0, 0⟩).currentToken = none
    ∧ (addPatientOnCreate none "1" 1 ⟨0, 0⟩).patients.map QueuePatient.tokenNo = ["T-1-1"]
    ∧ Status.waiting ≠ Status.serving :=
  ⟨rfl, rfl, rfl, by decide⟩

/-- C4 (amended): admission into an empty (or newly created) queue yields
token `T-{room}-1` on both paths, but only the manual `assign-token` path
promotes the entry to `serving` and sets `currentToken`/`currentIndex`;
the appointment-creation path appends the entry as `waiting` and leaves
`currentToken` and `currentPatientIndex` untouched. -/
theorem c4_amended_first_admission (room : String) (appointmentId : Nat)
    (now : Timestamp) (queueOpt : Option Queue)
    (h : (queueOpt.getD (newQueue room)).patients = []) :
    (∃ q', assignToken queueOpt room appointmentId now = Except.ok q'
      ∧ q'.patients.map QueuePatient.status = [Status.serving]
      ∧ q'.patients.map QueuePatient.tokenNo = ["T-" ++ room ++ "-" ++ toString 1]
      ∧ q'.currentToken = some ("T-" ++ room ++ "-" ++ toString 1)
      ∧ q'.currentPatientIndex = 0)
    ∧ (addPatientOnCreate queueOpt room appointmentId now).patients.map QueuePatient.status
        = [Status.waiting]
    ∧ (addPatientOnCreate queueOpt room appointmentId now).patients.map QueuePatient.tokenNo
        = [generateOPDToken room 1]
    ∧ (addPatientOnCreate queueOpt room appointmentId now).currentToken
        = (queueOpt.getD (newQueue room)).currentToken
    ∧ (addPatientOnCreate queueOpt room appointmentId now).currentPatientIndex
        = (queueOpt.getD (newQueue room)).currentPatientIndex := by
  cases queueOpt with
  | none =>
    exact ⟨⟨_, rfl, rfl, rfl, rfl, rfl⟩, rfl, rfl, rfl, rfl⟩
  | some q =>
    rcases q with ⟨rn, ct, ci, ps⟩
    have hps : ps = [] := h
    subst hps
    exact ⟨⟨_, rfl, rfl, rfl, rfl, rfl⟩, rfl, rfl, rfl, rfl⟩

/-- C4 witness: the amended theorem applied to a fresh queue for room 1. -/
theorem c4_amended_witness :
    ((none : Option Queue).getD (newQueue "1")).patients = []
    ∧ (addPatientOnCreate none "1" 5 ⟨0, 0⟩).patients.map QueuePatient.status
        = [Status.waiting]
    ∧ (addPatientOnCreate none "1" 5 ⟨0, 0⟩).patients.map QueuePatient.tokenNo
        = [generateOPDToken "1" 1] := by
  refine ⟨rfl, ?_, ?_⟩
  · exact (c4_amended_first_admission "1" 5 ⟨0, 0⟩ none rfl).2.1
  · exact (c4_amended_first_admission "1" 5 ⟨0, 0⟩ none rfl).2.2.1

/-- C10: manually assigning a token to an appointment that already has an
entry in the room's queue fails with the error reporting the existing
entry's token, and no success state (hence no second entry) is produced. -/
theorem c10_assign_token_duplicate (q : Queue) (roomNo : String)
    (appointmentId : Nat) (now : Timestamp) (p : QueuePatient)
    (h : q.patients.find? (fun p => decide (p.appointmentId = some appointmentId)) = some p) :
    assignToken (some q) roomNo appointmentId now
        = Except.error (QueueError.duplicateToken p.tokenNo)
    ∧ p ∈ q.patients
    ∧ p.appointmentId = some appointmentId
    ∧ ∀ q', assignToken (some q) roomNo appointmentId now ≠ Except.ok q' := by
  have hmem : p ∈ q.patients := List.mem_of_find?_eq_some h
  have hpa : p.appointmentId = some appointmentId := by
    have := List.find?_some h
    simpa using this
  have hEq : assignToken (some q) roomNo appointmentId now
      = Except.error (QueueError.duplicateToken p.tokenNo) := by
    unfold assignToken
    simp only [Option.getD_some]
    rw [h]
  exact ⟨hEq, hmem, hpa, fun q' hq' => by rw [hEq] at hq'; cases hq'⟩

/-- C10 witness: assigning a second token to appointment 1, already queued
in room 1 with token `T-1-1`, is rejected with that token. -/
theorem c10_witness :
    exQueue1.patients.find? (fun p => decide (p.appointmentId = some 1)) = some exEntry1
    ∧ assignToken (some exQueue1) "1" 1 ⟨0, 0⟩
        = Except.error (QueueError.duplicateToken exEntry1.tokenNo) :=
  ⟨rfl, (c10_assign_token_duplicate exQueue1 "1" 1 ⟨0, 0⟩ exEntry1 rfl).1⟩

/-- C8 counterexample: in a reachable state whose serving entry is not at
`currentPatientIndex` (token T-1-1 serving at index 0, cursor parked on
the completed entry at index 2), recalling token T-1-2 promotes it but
does NOT demote the prior serving entry: the queue ends with T-1-1 still
`serving` alongside T-1-2, refuting "the prior 'serving' entry (if any)
is demoted to 'completed'". -/
theorem c8_counterexample :
    (do
      let q1 ← assignToken none "1" 1 ⟨0, 0⟩
      let q2 := addPatientOnCreate (some q1) "1" 2 ⟨0, 0⟩
      let q3 := addPatientOnCreate (some q2) "1" 3 ⟨0, 0⟩
      let q4 ← completeAppointment q3 3
      pure (statusAt q4.patients 0,
        (setCurrentToken q4 "T-1-2").map
          (fun q5 => (q5.patients.map QueuePatient.status, q5.currentToken)))
      : Except QueueError (Option Status × Except QueueError (List Status × Option String)))
    = Except.ok (some Status.serving,
        Except.ok ([Status.serving, Status.serving, Status.completed], some "T-1-2"))
    ∧ Status.serving ≠ Status.completed :=
  ⟨rfl, by decide⟩

/-- C8 (amended): the handler `setCurrentToken` fails with NotFound iff no entry
carries the token (leaving the queue unchanged, since nothing is saved on
the error path); otherwise the located entry is promoted to `serving`
with `currentToken`/`currentPatientIndex` set to it, and the entry at
`currentPatientIndex` — not a serving entry elsewhere — is demoted to
`completed` when it was `serving`; all other entries are untouched. -/
theorem c8_set_current_token (q : Queue) (tokenNo : String) :
    (setCurrentToken q tokenNo = Except.error QueueError.notFound ↔
      ∀ p ∈ q.patients, p.tokenNo ≠ tokenNo)
    ∧ (∀ (i : Nat), findIndex (fun p => decide (p.tokenNo = tokenNo)) q.patients = some i →
        -1 ≤ q.currentPatientIndex →
        ∃ q', setCurrentToken q tokenNo = Except.ok q'
        ∧ q'.currentToken = some tokenNo
        ∧ q'.currentPatientIndex = (i : Int)
        ∧ statusAt q'.patients i = some Status.serving
        ∧ (∀ (k : Nat) (pk : QueuePatient), (k : Int) = q.currentPatientIndex → k ≠ i →
            q.patients[k]? = some pk → pk.status = Status.serving →
            statusAt q'.patients k = some Status.completed)
        ∧ (∀ (k : Nat), k ≠ i →
            ¬((k : Int) = q.currentPatientIndex
              ∧ statusAt q.patients k = some Status.serving) →
            q'.patients[k]? = q.patients[k]?)) := by
  cases hf : findIndex (fun p => decide (p.tokenNo = tokenNo)) q.patients with
  | none =>
    have hEq : setCurrentToken q tokenNo = Except.error QueueError.notFound := by
      unfold setCurrentToken
      rw [hf]
    refine ⟨⟨fun _ => ?_, fun _ => hEq⟩, fun i hi => Option.noConfusion hi⟩
    intro p' hp' htok
    have := (findIndex_eq_none_iff _ _).1 hf p' hp'
    rw [htok] at this
    simp at this
  | some i0 =>
    obtain ⟨p, hpi, hfp⟩ := findIndex_some_spec _ _ _ hf
    have hptok : p.tokenNo = tokenNo := by simpa using hfp
    have hmem : p ∈ q.patients := mem_of_getElem?_some hpi
    have hi0len : i0 < q.patients.length := findIndex_some_lt _ _ _ hf
    have hne : setCurrentToken q tokenNo ≠ Except.error QueueError.notFound := by
      unfold setCurrentToken
      rw [hf]
      dsimp only
      split
      · split
        · intro hc; cases hc
        · intro hc
          injection hc with hc
          cases hc
      · intro hc; cases hc
    refine ⟨⟨fun hl => absurd hl hne, fun hall => absurd hptok (hall p hmem)⟩, ?_⟩
    intro i hi hge
    have hii : i = i0 := by
      injection hi with hi2
      exact hi2.symm
    subst hii
    by_cases hcur : q.currentPatientIndex ≠ -1 ∧ q.currentPatientIndex < (q.patients.length : Int)
    · have h0 : 0 ≤ q.currentPatientIndex := by
        rcases hcur with ⟨hne1, _⟩
        omega
      have hEq : setCurrentToken q tokenNo = Except.ok { q with
          patients := updateStatus
            (if statusAt q.patients q.currentPatientIndex.toNat = some Status.serving
             then updateStatus q.patients q.currentPatientIndex.toNat Status.completed
             else q.patients) i Status.serving,
          currentToken := some tokenNo,
          currentPatientIndex := (i : Int) } := by
        unfold setCurrentToken
        rw [hf]
        dsimp only
        rw [if_pos hcur, if_pos h0]
      refine ⟨_, hEq, rfl, rfl, ?_, ?_, ?_⟩
      · rw [statusAt, getElem?_updateStatus_self]
        split
        · rw [List.getElem?_eq_getElem (by rw [length_updateStatus]; exact hi0len)]
          rfl
        · rw [List.getElem?_eq_getElem hi0len]
          rfl
      · intro k pk hkcur hki hkp hserv
        have hk : k = q.currentPatientIndex.toNat := by omega
        subst hk
        have hcond : statusAt q.patients q.currentPatientIndex.toNat = some Status.serving := by
          simp [statusAt, hkp, hserv]
        rw [statusAt, getElem?_updateStatus_ne _ _ _ _ hki, if_pos hcond,
          getElem?_updateStatus_self, hkp]
        rfl
      · intro k hki hnc
        rw [getElem?_updateStatus_ne _ _ _ _ hki]
        split
        · rename_i hcond
          have hkc : k ≠ q.currentPatientIndex.toNat := by
            intro hk
            exact hnc ⟨by omega, by rw [hk]; exact hcond⟩
          exact getElem?_updateStatus_ne _ _ _ _ hkc
        · rfl
    · have hEq : setCurrentToken q tokenNo = Except.ok { q with
          patients := updateStatus q.patients i Status.serving,
          currentToken := some tokenNo,
          currentPatientIndex := (i : Int) } := by
        unfold setCurrentToken
        rw [hf]
        dsimp only
        rw [if_neg hcur]
      refine ⟨_, hEq, rfl, rfl, ?_, ?_, fun k hki _ => getElem?_updateStatus_ne _ _ _ _ hki⟩
      · rw [statusAt, getElem?_updateStatus_self, hpi]
        rfl
      · intro k pk hkcur hki hkp hserv
        exfalso
        rcases not_and_or.1 hcur with h1 | h2
        · have : q.currentPatientIndex = -1 := by
            by_contra hc
            exact h1 hc
          omega
        · have hlen : (q.patients.length : Int) ≤ q.currentPatientIndex := not_lt.1 h2
          have hklen : k < q.patients.length := lt_of_getElem?_some hkp
          omega

/-- C8 witness: recalling token T-1-1 in a queue whose single entry
carries it succeeds and publishes the token. -/
theorem c8_witness :
    findIndex (fun p => decide (p.tokenNo = "T-1-1")) exQueue1.patients = some 0
    ∧ (-1 : Int) ≤ exQueue1.currentPatientIndex
    ∧ ∃ q', setCurrentToken exQueue1 "T-1-1" = Except.ok q'
        ∧ q'.currentToken = some "T-1-1" := by
  refine ⟨rfl, by decide, ?_⟩
  obtain ⟨q', h1, h2, _⟩ := (c8_set_current_token exQueue1 "T-1-1").2 0 rfl (by decide)
  exact ⟨q', h1, h2⟩

/-- C9 counterexample: a queue emptied by an appointment deletion and then
advanced (which sets `currentPatientIndex` to `-1` on the empty list) is
skipped by the midnight reset because it has no entries, so after the
reset its `currentPatientIndex` is still `-1`, not 0 as the claim states. -/
theorem c9_counterexample :
    (do
      let q1 ← assignToken none "1" 1 ⟨0, 0⟩
      let q3 ←
        match removeOnDelete q1 1 with
        | some q2 => nextPatient q2
        | none => Except.error QueueError.notFound
      pure (midnightReset q3) : Except QueueError Queue)
      = Except.ok { roomNo := "1", currentToken := none,
                    currentPatientIndex := -1, patients := [] }
    ∧ ({ roomNo := "1", currentToken := none, currentPatientIndex := -1,
         patients := [] } : Queue).currentPatientIndex ≠ 0 :=
  ⟨rfl, by decide⟩

/-- C9 (amended): the midnight reset leaves every queue with no entries;
a queue that had entries is cleared to `currentToken = null` and
`currentPatientIndex = 0`, while an already-empty queue is left untouched
(so a stale `currentPatientIndex` of `-1` can persist); the first
admission after the reset gets daily counter 1, i.e. token `T-{room}-1`,
regardless of the previous day's counters.  (The timer's rescheduling of
itself for the following midnight is control flow in
`scheduleMidnightReset`, outside this state model.) -/
theorem c9_amended_midnight_reset (q : Queue) (room : String)
    (appointmentId : Nat) (now : Timestamp) :
    (midnightReset q).patients = []
    ∧ (0 < q.patients.length →
        (midnightReset q).currentToken = none
        ∧ (midnightReset q).currentPatientIndex = 0)
    ∧ (q.patients = [] → midnightReset q = q)
    ∧ getDailyTokenNumber now (some (midnightReset q).patients) = 1
    ∧ (addPatientOnCreate (some (midnightReset q)) room appointmentId now).patients.map
        QueuePatient.tokenNo = [generateOPDToken room 1] := by
  unfold midnightReset
  by_cases h : 0 < q.patients.length
  · rw [if_pos h]
    refine ⟨rfl, fun _ => ⟨rfl, rfl⟩, fun he => ?_, rfl, ?_⟩
    · rw [he] at h; cases h
    · simp [addPatientOnCreate, getDailyTokenNumber]
  · rw [if_neg h]
    have he : q.patients = [] := by
      cases hq : q.patients with
      | nil => rfl
      | cons a t => rw [hq] at h; exact absurd (Nat.succ_pos t.length) h
    refine ⟨he, fun hc => absurd hc h, fun _ => rfl, ?_, ?_⟩
    · simp [getDailyTokenNumber, he]
    · simp [addPatientOnCreate, getDailyTokenNumber, he]

/-- C7: deleting an appointment's queue entry splices it out preserving
the order of remaining entries (`take i ++ drop (i+1)`); removing the
head with entries remaining promotes the new head to `serving` with
`currentToken` set to its token and the cursor at 0; removing the last
remaining entry clears `currentToken` to null and resets the cursor to 0;
removing a non-head entry changes nothing else. -/
theorem c7_remove_by_appointment (q : Queue) (appointmentId : Nat) (i : Nat)
    (h : findIndex (fun p => decide (p.appointmentId = some appointmentId)) q.patients = some i) :
    ∃ q', removeOnDelete q appointmentId = some q'
    ∧ (∃ p, q.patients[i]? = some p ∧ p.appointmentId = some appointmentId)
    ∧ (i = 0 → q.patients.drop 1 ≠ [] →
        q'.patients = updateStatus (q.patients.drop 1) 0 Status.serving
        ∧ (∃ p0, (q.patients.drop 1)[0]? = some p0 ∧ q'.currentToken = some p0.tokenNo)
        ∧ q'.currentPatientIndex = 0)
    ∧ (q.patients.eraseIdx i = [] →
        q'.patients = [] ∧ q'.currentToken = none ∧ q'.currentPatientIndex = 0)
    ∧ (i ≠ 0 →
        q'.patients = q.patients.take i ++ q.patients.drop (i + 1)
        ∧ q'.currentToken = q.currentToken
        ∧ q'.currentPatientIndex = q.currentPatientIndex) := by
  have hlt : i < q.patients.length := findIndex_some_lt _ _ _ h
  obtain ⟨p, hp, hfp⟩ := findIndex_some_spec _ _ _ h
  have hpa : p.appointmentId = some appointmentId := by simpa using hfp
  unfold removeOnDelete
  rw [h]
  cases i with
  | zero =>
    cases hps : q.patients with
    | nil => rw [hps] at hlt; cases hlt
    | cons a t =>
      rw [hps] at hp
      cases t with
      | nil =>
        refine ⟨{ q with patients := [], currentToken := none, currentPatientIndex := 0 },
          rfl, ⟨p, hp, hpa⟩, ?_, fun _ => ⟨rfl, rfl, rfl⟩, fun hne => absurd rfl hne⟩
        intro _ hne
        exact absurd rfl hne
      | cons b t' =>
        refine ⟨{ q with
            patients := updateStatus (b :: t') 0 Status.serving,
            currentToken := some b.tokenNo,
            currentPatientIndex := 0 },
          by simp [List.eraseIdx], ⟨p, hp, hpa⟩,
          fun _ _ => ⟨rfl, ⟨b, by simp, rfl⟩, rfl⟩, ?_,
          fun hne => absurd rfl hne⟩
        intro hc
        simp [List.eraseIdx] at hc
  | succ m =>
    cases hps : q.patients with
    | nil => rw [hps] at hlt; cases hlt
    | cons a t =>
      rw [hps] at hp
      refine ⟨{ q with patients := a :: t.eraseIdx m }, rfl, ⟨p, hp, hpa⟩,
        fun hc => absurd hc (Nat.succ_ne_zero m), ?_, ?_⟩
      · intro hc
        simp [List.eraseIdx] at hc
      · intro _
        refine ⟨?_, rfl, rfl⟩
        show a :: t.eraseIdx m = (a :: t).take (m + 1) ++ (a :: t).drop (m + 2)
        rw [List.take_succ_cons, List.drop_succ_cons, List.cons_append,
          eraseIdx_eq_take_drop]

/-- C1 counterexample: a reachable five-step sequence — manual token
assignment, two appointment-creation admissions, completing the third
appointment (which parks the cursor on it), then recalling token T-1-2 —
ends with two entries in state `serving`, because `setCurrentToken` only
demotes the entry at the cursor and `completeAppointment` promotes past a
serving entry it did not demote. -/
theorem c1_counterexample :
    (do
      let q1 ← assignToken none "1" 1 ⟨0, 0⟩
      let q2 := addPatientOnCreate (some q1) "1" 2 ⟨0, 0⟩
      let q3 := addPatientOnCreate (some q2) "1" 3 ⟨0, 0⟩
      let q4 ← completeAppointment q3 3
      let q5 ← setCurrentToken q4 "T-1-2"
      pure (servingCount q5.patients) : Except QueueError Nat)
    = Except.ok 2
    ∧ ¬ (2 ≤ 1) :=
  ⟨rfl, by decide⟩

/-- C1 (amended): each single mutation leaves at most one serving entry
under the stated per-operation preconditions: `addPatientOnCreate`,
`assignToken`, `skipPatient`, the startup sweep and the midnight reset
preserve "at most one serving" unconditionally; `nextPatient` and
`setCurrentToken` preserve it when every serving entry sits at
`currentPatientIndex`; `completeAppointment` when every serving entry is
the completed appointment's entry; `removeOnDelete` when the head is
removed and every serving entry is the head, or when a non-head entry is
removed.  Without these preconditions the invariant fails: a reachable
mutation sequence produces two serving entries. -/
theorem c1_at_most_one_serving (q : Queue) :
    (∀ (room : String) (a : Nat) (now : Timestamp), servingCount q.patients ≤ 1 →
        servingCount (addPatientOnCreate (some q) room a now).patients ≤ 1)
    ∧ (∀ (room : String) (a : Nat) (now : Timestamp) (q' : Queue),
        servingCount q.patients ≤ 1 →
        assignToken (some q) room a now = Except.ok q' → servingCount q'.patients ≤ 1)
    ∧ (∀ (idx : Int) (q' : Queue), servingCount q.patients ≤ 1 →
        skipPatient q idx = Except.ok q' → servingCount q'.patients ≤ 1)
    ∧ (∀ q', servingOnlyAt q.patients q.currentPatientIndex →
        nextPatient q = Except.ok q' → servingCount q'.patients ≤ 1)
    ∧ (∀ (t : String) (q' : Queue), servingOnlyAt q.patients q.currentPatientIndex →
        setCurrentToken q t = Except.ok q' → servingCount q'.patients ≤ 1)
    ∧ (∀ (a : Nat) (i : Nat) (q' : Queue),
        findIndex (fun p => decide (p.appointmentId = some a)) q.patients = some i →
        (∀ (j : Nat) (p : QueuePatient), q.patients[j]? = some p →
          p.status = Status.serving → j = i) →
        completeAppointment q a = Except.ok q' → servingCount q'.patients ≤ 1)
    ∧ (∀ (a : Nat) (q' : Queue),
        findIndex (fun p => decide (p.appointmentId = some a)) q.patients = some 0 →
        (∀ (j : Nat) (p : QueuePatient), q.patients[j]? = some p →
          p.status = Status.serving → j = 0) →
        removeOnDelete q a = some q' → servingCount q'.patients ≤ 1)
    ∧ (∀ (a : Nat) (i : Nat) (q' : Queue),
        findIndex (fun p => decide (p.appointmentId = some a)) q.patients = some (i + 1) →
        servingCount q.patients ≤ 1 →
        removeOnDelete q a = some q' → servingCount q'.patients ≤ 1)
    ∧ (∀ today, servingCount q.patients ≤ 1 →
        servingCount (startupSweep q today).patients ≤ 1)
    ∧ (servingCount q.patients ≤ 1 → servingCount (midnightReset q).patients ≤ 1) := by
  refine ⟨?_, ?_, ?_, ?_, ?_, ?_, ?_, ?_, ?_, ?_⟩
  · -- addPatientOnCreate appends a waiting entry
    intro room a now hc
    show servingCount (q.patients ++ [_]) ≤ 1
    rw [servingCount_append, servingCount_singleton_nonserving _ (by simp)]
    omega
  · -- assignToken appends a waiting entry, promoting only into an empty queue
    intro room a now q' hc hok
    unfold assignToken at hok
    simp only [Option.getD_some] at hok
    cases hfind : q.patients.find? (fun p => decide (p.appointmentId = some a)) with
    | some p0 => rw [hfind] at hok; cases hok
    | none =>
      rw [hfind] at hok
      dsimp only at hok
      split at hok
      · rename_i hone
        injection hok with hok
        rw [← hok]
        have hnil : q.patients = [] := by
          apply List.length_eq_zero.1
          have := hone
          rw [List.length_append, List.length_singleton] at this
          omega
        show servingCount (updateStatus (q.patients ++ [_]) 0 Status.serving) ≤ 1
        rw [hnil]
        exact le_refl 1
      · injection hok with hok
        rw [← hok]
        show servingCount (q.patients ++ [_]) ≤ 1
        rw [servingCount_append, servingCount_singleton_nonserving _ (by simp)]
        omega
  · -- skipPatient only writes a non-serving status
    intro idx q' hc hok
    unfold skipPatient at hok
    split at hok
    · cases hok
    · injection hok with hok
      rw [← hok]
      show servingCount (updateStatus q.patients idx.toNat Status.skipped) ≤ 1
      exact le_trans (servingCount_updateStatus_nonserving _ _ _ (by decide)) hc
  · -- nextPatient demotes the cursor entry before promoting one entry
    intro q' hsv hok
    unfold nextPatient at hok
    split at hok
    · split at hok
      · rename_i hin h0
        injection hok with hok
        rw [← hok]
        have hz : servingCount (updateStatus q.patients
            q.currentPatientIndex.toNat Status.completed) = 0 :=
          servingCount_mark_completed q.patients q.currentPatientIndex h0 hsv
        calc servingCount (advanceStep { q with
              patients := updateStatus q.patients
                q.currentPatientIndex.toNat Status.completed }).patients
            ≤ servingCount (updateStatus q.patients
                q.currentPatientIndex.toNat Status.completed) + 1 :=
              servingCount_advanceStep_le _
          _ ≤ 1 := by omega
      · cases hok
    · rename_i hout
      injection hok with hok
      rw [← hok]
      have hz : servingCount q.patients = 0 :=
        servingCount_eq_zero_of_only_out q.patients q.currentPatientIndex hsv
          (Or.inl (le_of_not_lt hout))
      calc servingCount (advanceStep q).patients
          ≤ servingCount q.patients + 1 := servingCount_advanceStep_le q
        _ ≤ 1 := by omega
  · -- setCurrentToken demotes the cursor entry before promoting one entry
    intro t q' hsv hok
    cases hfi : findIndex (fun p => decide (p.tokenNo = t)) q.patients with
    | none => unfold setCurrentToken at hok; rw [hfi] at hok; cases hok
    | some i =>
      unfold setCurrentToken at hok
      rw [hfi] at hok
      dsimp only at hok
      split at hok
      · split at hok
        · rename_i hcur h0
          injection hok with hok
          rw [← hok]
          have hz : servingCount (if statusAt q.patients q.currentPatientIndex.toNat
              = some Status.serving
              then updateStatus q.patients q.currentPatientIndex.toNat Status.completed
              else q.patients) = 0 := by
            split
            · exact servingCount_mark_completed q.patients q.currentPatientIndex h0 hsv
            · rename_i hnsv
              apply servingCount_eq_zero
              intro j p hj hp
              have hji := hsv j p hj hp
              have hjn : j = q.currentPatientIndex.toNat := by omega
              apply hnsv
              rw [statusAt, ← hjn, hj]
              simp [hp]
          show servingCount (updateStatus _ i Status.serving) ≤ 1
          exact le_trans (servingCount_updateStatus_serving_le _ _) (by omega)
        · cases hok
      · rename_i hcur
        injection hok with hok
        rw [← hok]
        have hz : servingCount q.patients = 0 := by
          apply servingCount_eq_zero_of_only_out q.patients q.currentPatientIndex hsv
          rcases not_and_or.1 hcur with h1 | h2
          · right
            have : q.currentPatientIndex = -1 := by
              by_contra hcc
              exact h1 hcc
            omega
          · left
            exact le_of_not_lt h2
        show servingCount (updateStatus q.patients i Status.serving) ≤ 1
        exact le_trans (servingCount_updateStatus_serving_le _ _) (by omega)
  · -- completeAppointment demotes the (only) serving entry it completes
    intro a i q' hfi hsv hok
    unfold completeAppointment at hok
    rw [hfi] at hok
    dsimp only at hok
    have hz : servingCount (updateStatus q.patients i Status.completed) = 0 := by
      apply servingCount_eq_zero
      intro j p hj hp
      by_cases hji : j = i
      · rw [hji, getElem?_updateStatus_self] at hj
        cases hl : q.patients[i]? with
        | none => rw [hl] at hj; cases hj
        | some x =>
          rw [hl] at hj
          injection hj with hj
          rw [← hj] at hp
          exact absurd hp (by simp)
      · rw [getElem?_updateStatus_ne _ _ _ _ hji] at hj
        exact hji (hsv j p hj hp)
    cases hfw : findFromIndex (fun p => decide (p.status = Status.waiting))
        (updateStatus q.patients i Status.completed) (i + 1) with
    | some j =>
      rw [hfw] at hok
      injection hok with hok
      rw [← hok]
      show servingCount (updateStatus _ j Status.serving) ≤ 1
      exact le_trans (servingCount_updateStatus_serving_le _ _) (by omega)
    | none =>
      rw [hfw] at hok
      injection hok with hok
      rw [← hok]
      show servingCount (updateStatus q.patients i Status.completed) ≤ 1
      omega
  · -- removeOnDelete of the head, with the head the only serving entry
    intro a q' hfi hsv hrm
    have hilen : 0 < q.patients.length := findIndex_some_lt _ _ _ hfi
    unfold removeOnDelete at hrm
    rw [hfi] at hrm
    dsimp only at hrm
    have hz : servingCount (q.patients.eraseIdx 0) = 0 := by
      cases hps : q.patients with
      | nil => rw [hps] at hilen; cases hilen
      | cons b t =>
        show servingCount ((b :: t).eraseIdx 0) = 0
        apply servingCount_eq_zero
        intro j p hj hp
        have : (b :: t)[j + 1]? = some p := by
          rw [List.getElem?_cons_succ]
          exact hj
        have := hsv (j + 1) p (by rw [hps]; exact this) hp
        omega
    by_cases hl : (0 : Nat) = 0 ∧ 0 < (q.patients.eraseIdx 0).length
    · rw [if_pos hl] at hrm
      rw [List.getElem?_eq_getElem hl.2] at hrm
      injection hrm with hrm
      rw [← hrm]
      show servingCount (updateStatus (q.patients.eraseIdx 0) 0 Status.serving) ≤ 1
      exact le_trans (servingCount_updateStatus_serving_le _ _) (by omega)
    · rw [if_neg hl] at hrm
      have hl0 : (q.patients.eraseIdx 0).length = 0 := by
        rcases Nat.eq_zero_or_pos (q.patients.eraseIdx 0).length with h | h
        · exact h
        · exact absurd ⟨rfl, h⟩ hl
      rw [if_pos hl0] at hrm
      injection hrm with hrm
      rw [← hrm]
      show servingCount (q.patients.eraseIdx 0) ≤ 1
      omega
  · -- removeOnDelete of a non-head entry never adds a serving entry
    intro a i q' hfi hc hrm
    unfold removeOnDelete at hrm
    rw [hfi] at hrm
    dsimp only at hrm
    rw [if_neg (by
      intro hcon
      exact Nat.succ_ne_zero i hcon.1)] at hrm
    split at hrm
    · injection hrm with hrm
      rw [← hrm]
      show servingCount (q.patients.eraseIdx (i + 1)) ≤ 1
      exact le_trans (servingCount_eraseIdx_le _ _) hc
    · injection hrm with hrm
      rw [← hrm]
      show servingCount (q.patients.eraseIdx (i + 1)) ≤ 1
      exact le_trans (servingCount_eraseIdx_le _ _) hc
  · -- startup sweep only removes entries
    intro today hc
    unfold startupSweep
    dsimp only
    split
    · split
      · show servingCount (q.patients.filter _) ≤ 1
        exact le_trans (servingCount_filter_le _ _) hc
      · show servingCount (q.patients.filter _) ≤ 1
        exact le_trans (servingCount_filter_le _ _) hc
    · exact hc
  · -- midnight reset clears or leaves the queue
    intro hc
    unfold midnightReset
    split
    · show servingCount [] ≤ 1
      decide
    · exact hc

/-- C1 witness: the preservation theorem applied to a queue whose single
entry is serving at the cursor. -/
theorem c1_witness :
    servingCount exQueue1.patients ≤ 1
    ∧ servingOnlyAt exQueue1.patients exQueue1.currentPatientIndex
    ∧ servingCount (addPatientOnCreate (some exQueue1) "1" 2 ⟨0, 0⟩).patients ≤ 1
    ∧ servingCount (midnightReset exQueue1).patients ≤ 1
    ∧ ∀ q', nextPatient exQueue1 = Except.ok q' → servingCount q'.patients ≤ 1 := by
  have h := c1_at_most_one_serving exQueue1
  exact ⟨by decide, by decide, h.1 "1" 2 ⟨0, 0⟩ (by decide),
    h.2.2.2.2.2.2.2.2.2 (by decide),
    fun q' hok => h.2.2.2.1 q' (by decide) hok⟩

/-- C2 counterexample: admit two patients, advance (the cursor reaches
index 1), then delete the second patient's appointment.  The splice
leaves `currentPatientIndex = 1` on a one-entry list: the cursor is out
of range while the queue is non-empty, violating the claimed invariant
after a `removeByAppointment`. -/
theorem c2_counterexample :
    ((do
        let q1 ← assignToken none "1" 1 ⟨0, 0⟩
        let q2 := addPatientOnCreate (some q1) "1" 2 ⟨0, 0⟩
        nextPatient q2 : Except QueueError Queue).toOption.bind
      (fun q3 => removeOnDelete q3 2))
      = some { roomNo := "1", currentToken := some "T-1-2", currentPatientIndex := 1,
               patients := [{ appointmentId := some 1, tokenNo := "T-1-1",
                              status := Status.completed, position := 0,
                              createdAt := ⟨0, 0⟩ }] }
    ∧ ¬ cursorInvariant
        { roomNo := "1", currentToken := some "T-1-2", currentPatientIndex := 1,
          patients := [{ appointmentId := some 1, tokenNo := "T-1-1",
                         status := Status.completed, position := 0,
                         createdAt := ⟨0, 0⟩ }] } :=
  ⟨rfl, by decide⟩

/-- C2 (amended): the cursor invariant — `currentPatientIndex` a valid
index, or the queue empty with a null token — is preserved by every queue
operation except in three corners: `addPatientOnCreate` needs the empty
queue's cursor to be 0 (advancing an empty queue parks it at `-1`),
`removeOnDelete` preserves it only when the head is removed or the cursor
was below `length - 1` (a non-head splice leaves the old cursor, which
can point past the shortened list), and the startup sweep preserves it
when it removes nothing or empties the queue (a partial sweep keeps the
old cursor against a shorter list). -/
theorem c2_cursor_invariant (q : Queue) (hq : cursorInvariant q) :
    (∀ (room : String) (a : Nat) (now : Timestamp),
        (q.patients = [] → q.currentPatientIndex = 0) →
        cursorInvariant (addPatientOnCreate (some q) room a now))
    ∧ (∀ (room : String) (a : Nat) (now : Timestamp) (q' : Queue),
        assignToken (some q) room a now = Except.ok q' → cursorInvariant q')
    ∧ (∀ q', nextPatient q = Except.ok q' → cursorInvariant q')
    ∧ (∀ (a : Nat) (q' : Queue),
        completeAppointment q a = Except.ok q' → cursorInvariant q')
    ∧ (∀ (t : String) (q' : Queue),
        setCurrentToken q t = Except.ok q' → cursorInvariant q')
    ∧ (∀ (idx : Int) (q' : Queue),
        skipPatient q idx = Except.ok q' → cursorInvariant q')
    ∧ (∀ (a : Nat) (i : Nat) (q' : Queue),
        findIndex (fun p => decide (p.appointmentId = some a)) q.patients = some i →
        removeOnDelete q a = some q' →
        (i = 0 ∨ q.currentPatientIndex < (q.patients.length : Int) - 1) →
        cursorInvariant q')
    ∧ (∀ today, (q.patients.filter (fun p => tsLe today p.createdAt) = q.patients
          ∨ q.patients.filter (fun p => tsLe today p.createdAt) = []) →
        cursorInvariant (startupSweep q today))
    ∧ cursorInvariant (midnightReset q) := by
  refine ⟨?_, ?_, ?_, ?_, ?_, ?_, ?_, ?_, ?_⟩
  · -- addPatientOnCreate
    intro room a now hemp
    rcases hq with ⟨h1, h2⟩ | ⟨h1, h2⟩
    · left
      refine ⟨h1, ?_⟩
      show q.currentPatientIndex < ((q.patients ++ [_]).length : Int)
      rw [List.length_append]
      push_cast
      omega
    · left
      have h0 := hemp h1
      have hl0 : q.patients.length = 0 := by rw [h1]; rfl
      refine ⟨?_, ?_⟩
      · show (0 : Int) ≤ q.currentPatientIndex
        omega
      · show q.currentPatientIndex < ((q.patients ++ [_]).length : Int)
        rw [List.length_append, List.length_singleton]
        push_cast
        omega
  · -- assignToken
    intro room a now q' hok
    unfold assignToken at hok
    simp only [Option.getD_some] at hok
    cases hfind : q.patients.find? (fun p => decide (p.appointmentId = some a)) with
    | some p0 => rw [hfind] at hok; cases hok
    | none =>
      rw [hfind] at hok
      dsimp only at hok
      split at hok
      · rename_i hone
        injection hok with hok
        rw [← hok]
        left
        refine ⟨le_refl 0, ?_⟩
        show (0 : Int) < ((updateStatus (q.patients ++ [_]) 0 Status.serving).length : Int)
        rw [length_updateStatus, hone]
        omega
      · rename_i hone
        injection hok with hok
        rw [← hok]
        have hlen : q.patients.length + 1 ≠ 1 := by
          intro hc
          apply hone
          show (q.patients ++ [_]).length = 1
          rw [List.length_append, List.length_singleton]
          omega
        rcases hq with ⟨h1, h2⟩ | ⟨h1, h2⟩
        · left
          refine ⟨h1, ?_⟩
          show q.currentPatientIndex < ((q.patients ++ [_]).length : Int)
          rw [List.length_append]
          push_cast
          omega
        · exfalso
          have : q.patients.length = 0 := by rw [h1]; rfl
          omega
  · -- nextPatient
    intro q' hok
    unfold nextPatient at hok
    split at hok
    · split at hok
      · rename_i hin h0
        injection hok with hok
        rw [← hok]
        have hlen : 0 < q.patients.length := by omega
        set L1 := updateStatus q.patients q.currentPatientIndex.toNat Status.completed
          with hL1
        have hlen1 : L1.length = q.patients.length := length_updateStatus _ _ _
        have h0min : 0 ≤ min (q.currentPatientIndex + 1) ((L1.length : Int) - 1) := by
          rw [hlen1]; omega
        have hminlt : min (q.currentPatientIndex + 1) ((L1.length : Int) - 1)
            < (L1.length : Int) := by
          rw [hlen1]; omega
        have hmn : (min (q.currentPatientIndex + 1) ((L1.length : Int) - 1)).toNat
            < L1.length := by omega
        have hAS := advanceStep_eq { q with patients := L1 }
          (L1.get ⟨_, hmn⟩) h0min (by
            show L1[(min (q.currentPatientIndex + 1) ((L1.length : Int) - 1)).toNat]?
              = some (L1.get ⟨_, hmn⟩)
            rw [List.getElem?_eq_getElem, List.get_eq_getElem])
        dsimp only at hAS
        rw [hAS]
        left
        refine ⟨h0min, ?_⟩
        show min (q.currentPatientIndex + 1) ((L1.length : Int) - 1)
          < ((updateStatus L1 (min (q.currentPatientIndex + 1)
              ((L1.length : Int) - 1)).toNat Status.serving).length : Int)
        have hL := length_updateStatus L1 (min (q.currentPatientIndex + 1)
          ((L1.length : Int) - 1)).toNat Status.serving
        omega
      · cases hok
    · rename_i hout
      injection hok with hok
      rw [← hok]
      rcases hq with ⟨h1, h2⟩ | ⟨h1, h2⟩
      · exact absurd h2 hout
      · have hl0 : q.patients.length = 0 := by rw [h1]; rfl
        have h0c : 0 ≤ q.currentPatientIndex := by omega
        have hAS : advanceStep q = { q with
            currentPatientIndex := min (q.currentPatientIndex + 1)
              ((q.patients.length : Int) - 1) } := by
          unfold advanceStep
          dsimp only
          rw [if_neg (by omega)]
        rw [hAS]
        right
        exact ⟨h1, h2⟩
  · -- completeAppointment
    intro a q' hok
    cases hfi : findIndex (fun p => decide (p.appointmentId = some a)) q.patients with
    | none => unfold completeAppointment at hok; rw [hfi] at hok; cases hok
    | some i =>
      have hilen : i < q.patients.length := findIndex_some_lt _ _ _ hfi
      unfold completeAppointment at hok
      rw [hfi] at hok
      dsimp only at hok
      cases hfw : findFromIndex (fun p => decide (p.status = Status.waiting))
          (updateStatus q.patients i Status.completed) (i + 1) with
      | some j =>
        rw [hfw] at hok
        injection hok with hok
        rw [← hok]
        obtain ⟨_, pj, hpj, _⟩ := findFromIndex_some_spec _ _ _ _ hfw
        have hjlen : j < q.patients.length := by
          have := lt_of_getElem?_some hpj
          rw [length_updateStatus] at this
          exact this
        left
        refine ⟨Int.natCast_nonneg j, ?_⟩
        show (j : Int) < ((updateStatus (updateStatus q.patients i Status.completed)
          j Status.serving).length : Int)
        rw [length_updateStatus, length_updateStatus]
        omega
      | none =>
        rw [hfw] at hok
        injection hok with hok
        rw [← hok]
        left
        refine ⟨Int.natCast_nonneg i, ?_⟩
        show (i : Int) < ((updateStatus q.patients i Status.completed).length : Int)
        rw [length_updateStatus]
        omega
  · -- setCurrentToken
    intro t q' hok
    cases hfi : findIndex (fun p => decide (p.tokenNo = t)) q.patients with
    | none => unfold setCurrentToken at hok; rw [hfi] at hok; cases hok
    | some i =>
      have hilen : i < q.patients.length := findIndex_some_lt _ _ _ hfi
      unfold setCurrentToken at hok
      rw [hfi] at hok
      dsimp only at hok
      split at hok
      · split at hok
        · injection hok with hok
          rw [← hok]
          left
          refine ⟨Int.natCast_nonneg i, ?_⟩
          show (i : Int) < ((updateStatus (if _ then _ else _) i Status.serving).length : Int)
          rw [length_updateStatus]
          split
          · rw [length_updateStatus]
            omega
          · omega
        · cases hok
      · injection hok with hok
        rw [← hok]
        left
        refine ⟨Int.natCast_nonneg i, ?_⟩
        show (i : Int) < ((updateStatus q.patients i Status.serving).length : Int)
        rw [length_updateStatus]
        omega
  · -- skipPatient
    intro idx q' hok
    unfold skipPatient at hok
    split at hok
    · cases hok
    · rename_i hcond
      push_neg at hcond
      injection hok with hok
      rw [← hok]
      rcases hq with ⟨h1, h2⟩ | ⟨h1, h2⟩
      · left
        refine ⟨h1, ?_⟩
        show q.currentPatientIndex < ((updateStatus q.patients _ Status.skipped).length : Int)
        rw [length_updateStatus]
        exact h2
      · exfalso
        have hl0 : q.patients.length = 0 := by rw [h1]; rfl
        omega
  · -- removeOnDelete
    intro a i q' hfi hrm hside
    have hilen : i < q.patients.length := findIndex_some_lt _ _ _ hfi
    unfold removeOnDelete at hrm
    rw [hfi] at hrm
    dsimp only at hrm
    by_cases hl : i = 0 ∧ 0 < (q.patients.eraseIdx i).length
    · rw [if_pos hl] at hrm
      obtain ⟨hi0, hpos⟩ := hl
      rw [List.getElem?_eq_getElem hpos] at hrm
      injection hrm with hrm
      rw [← hrm]
      left
      refine ⟨le_refl 0, ?_⟩
      show (0 : Int) < ((updateStatus (q.patients.eraseIdx i) 0 Status.serving).length : Int)
      rw [length_updateStatus]
      omega
    · rw [if_neg hl] at hrm
      split at hrm
      · rename_i hzero
        injection hrm with hrm
        rw [← hrm]
        right
        exact ⟨List.length_eq_zero.1 hzero, rfl⟩
      · rename_i hzero
        injection hrm with hrm
        rw [← hrm]
        have herase : (q.patients.eraseIdx i).length = q.patients.length - 1 :=
          length_eraseIdx_of_lt _ _ hilen
        have hi0 : i ≠ 0 := by
          intro hc
          exact hl ⟨hc, by omega⟩
        have hcur : q.currentPatientIndex < (q.patients.length : Int) - 1 := by
          rcases hside with hc | hc
          · exact absurd hc hi0
          · exact hc
        rcases hq with ⟨h1, h2⟩ | ⟨h1, h2⟩
        · left
          refine ⟨h1, ?_⟩
          show q.currentPatientIndex < ((q.patients.eraseIdx i).length : Int)
          rw [herase]
          omega
        · exfalso
          have hl0 : q.patients.length = 0 := by rw [h1]; rfl
          omega
  · -- startup sweep
    intro today hopt
    unfold startupSweep
    dsimp only
    rcases hopt with hkeep | hgone
    · rw [hkeep, if_neg (by omega)]
      exact hq
    · rw [hgone]
      by_cases hqe : q.patients.length = 0
      · rw [if_neg (by simp only [List.length_nil]; omega)]
        exact hq
      · have h00 : ([] : List QueuePatient).length = 0 := rfl
        rw [if_pos (by simp only [List.length_nil]; omega), if_pos h00]
        right
        exact ⟨rfl, rfl⟩
  · -- midnight reset
    unfold midnightReset
    split
    · right
      exact ⟨rfl, rfl⟩
    · exact hq

/-- C2 witness: the preservation theorem applied to a valid one-entry
queue. -/
theorem c2_witness :
    cursorInvariant exQueue1
    ∧ cursorInvariant (midnightReset exQueue1)
    ∧ cursorInvariant (addPatientOnCreate (some exQueue1) "1" 2 ⟨0, 0⟩) := by
  have h := c2_cursor_invariant exQueue1 (by decide)
  exact ⟨by decide, h.2.2.2.2.2.2.2.2,
    h.1 "1" 2 ⟨0, 0⟩ (fun he => absurd he (by decide))⟩

/-- C5 counterexample: advancing an empty queue is accepted and parks the
cursor at `-1`; after the next admission the queue is non-empty with
cursor `-1`, and `advanceToNext` then dereferences `patients[-1]` — an
out-of-range access that throws instead of performing the described
completion/advance, refuting the claim for this reachable non-empty
queue. -/
theorem c5_counterexample :
    (do
      let q1 ← nextPatient (newQueue "1")
      let q2 := addPatientOnCreate (some q1) "1" 1 ⟨0, 0⟩
      nextPatient q2 : Except QueueError Queue) = Except.error QueueError.typeError
    ∧ ((nextPatient (newQueue "1")).map
        (fun q1 => ((addPatientOnCreate (some q1) "1" 1 ⟨0, 0⟩).patients.length,
                    (addPatientOnCreate (some q1) "1" 1 ⟨0, 0⟩).currentPatientIndex)))
      = Except.ok (1, -1) :=
  ⟨rfl, rfl⟩

/-- C5 (amended): for every non-empty queue whose cursor is non-negative,
`nextPatient` succeeds; it marks the entry at `currentPatientIndex` as
`completed` when the cursor moves (the cursor entry keeps `completed`
exactly when `currentIndex + 1 < length`), sets
`currentIndex = min(currentIndex + 1, length - 1)`, promotes the entry at
the new index to `serving` publishing its token, leaves all other entries
untouched, and is idempotent once the cursor sits on the last entry.  On
a non-empty queue whose cursor is `-1` (reachable by advancing an empty
queue and then admitting a patient) the handler instead throws on the
out-of-range access `patients[-1]`. -/
theorem c5_advance_to_next (q : Queue) (hne : q.patients ≠ [])
    (h0 : 0 ≤ q.currentPatientIndex) :
    ∃ q', nextPatient q = Except.ok q'
    ∧ q'.currentPatientIndex
        = min (q.currentPatientIndex + 1) ((q.patients.length : Int) - 1)
    ∧ q'.patients.length = q.patients.length
    ∧ statusAt q'.patients
        (min (q.currentPatientIndex + 1) ((q.patients.length : Int) - 1)).toNat
        = some Status.serving
    ∧ (∃ p, q.patients[(min (q.currentPatientIndex + 1)
          ((q.patients.length : Int) - 1)).toNat]? = some p
        ∧ q'.currentToken = some p.tokenNo)
    ∧ (q.currentPatientIndex + 1 < (q.patients.length : Int) →
        statusAt q'.patients q.currentPatientIndex.toNat = some Status.completed)
    ∧ (∀ (j : Nat), (j : Int) ≠ q.currentPatientIndex →
        (j : Int) ≠ min (q.currentPatientIndex + 1) ((q.patients.length : Int) - 1) →
        q'.patients[j]? = q.patients[j]?)
    ∧ (q.currentPatientIndex = (q.patients.length : Int) - 1 →
        nextPatient q' = Except.ok q') := by
  have hlen : 0 < q.patients.length := List.length_pos.2 hne
  have h0min : 0 ≤ min (q.currentPatientIndex + 1) ((q.patients.length : Int) - 1) := by
    omega
  have hminlt : min (q.currentPatientIndex + 1) ((q.patients.length : Int) - 1)
      < (q.patients.length : Int) := by
    omega
  set m := min (q.currentPatientIndex + 1) ((q.patients.length : Int) - 1) with hm
  have hmnat : m.toNat < q.patients.length := by omega
  by_cases hin : q.currentPatientIndex < (q.patients.length : Int)
  · -- the cursor is in range: the handler first marks it completed
    have hcnat : q.currentPatientIndex.toNat < q.patients.length := by omega
    set L1 := updateStatus q.patients q.currentPatientIndex.toNat Status.completed with hL1
    have hlen1 : L1.length = q.patients.length := length_updateStatus _ _ _
    set q1 : Queue := { q with patients := L1 } with hq1def
    have hq1 : nextPatient q = Except.ok (advanceStep q1) := by
      unfold nextPatient
      rw [if_pos hin, if_pos h0]
    have hm1 : min (q1.currentPatientIndex + 1) ((q1.patients.length : Int) - 1) = m := by
      show min (q.currentPatientIndex + 1) ((L1.length : Int) - 1) = m
      rw [hlen1, hm]
    have hp1ex : L1[m.toNat]? = some (L1.get ⟨m.toNat, by rw [hlen1]; exact hmnat⟩) := by
      rw [List.getElem?_eq_getElem, List.get_eq_getElem]
    set p1 := L1.get ⟨m.toNat, by rw [hlen1]; exact hmnat⟩ with hp1def
    have hAS : advanceStep q1 = { q1 with
        patients := updateStatus L1 m.toNat Status.serving,
        currentToken := some p1.tokenNo,
        currentPatientIndex := m } := by
      have := advanceStep_eq q1 p1 (by rw [hm1]; exact h0min) (by
        show q1.patients[(min (q1.currentPatientIndex + 1)
            ((q1.patients.length : Int) - 1)).toNat]? = some p1
        rw [hm1]
        exact hp1ex)
      rw [this, hm1]
    refine ⟨{ q1 with
        patients := updateStatus L1 m.toNat Status.serving,
        currentToken := some p1.tokenNo,
        currentPatientIndex := m }, by rw [hq1, hAS], rfl, ?_, ?_, ?_, ?_, ?_, ?_⟩
    · show (updateStatus L1 m.toNat Status.serving).length = q.patients.length
      rw [length_updateStatus, hlen1]
    · show statusAt (updateStatus L1 m.toNat Status.serving) m.toNat = some Status.serving
      rw [statusAt, getElem?_updateStatus_self, hp1ex]
      rfl
    · -- the token published is that of the original entry at the new index
      refine ⟨q.patients.get ⟨m.toNat, hmnat⟩, by
        rw [List.getElem?_eq_getElem, List.get_eq_getElem], ?_⟩
      by_cases hmc : m.toNat = q.currentPatientIndex.toNat
      · have hthis : L1[m.toNat]? = (q.patients[m.toNat]?).map
            (fun p => { p with status := Status.completed }) := by
          rw [hmc, hL1, getElem?_updateStatus_self]
        rw [List.getElem?_eq_getElem (show m.toNat < L1.length by
              rw [hlen1]; exact hmnat),
          List.getElem?_eq_getElem hmnat] at hthis
        injection hthis with hthis
        show some p1.tokenNo = some q.patients[m.toNat].tokenNo
        rw [hp1def, List.get_eq_getElem, hthis]
      · have hthis : L1[m.toNat]? = q.patients[m.toNat]? := by
          rw [hL1]
          exact getElem?_updateStatus_ne _ _ _ _ hmc
        rw [List.getElem?_eq_getElem (show m.toNat < L1.length by
              rw [hlen1]; exact hmnat),
          List.getElem?_eq_getElem hmnat] at hthis
        injection hthis with hthis
        show some p1.tokenNo = some q.patients[m.toNat].tokenNo
        rw [hp1def, List.get_eq_getElem, hthis]
    · intro hmove
      have hmeq : m = q.currentPatientIndex + 1 := by omega
      have hne2 : q.currentPatientIndex.toNat ≠ m.toNat := by omega
      show statusAt (updateStatus L1 m.toNat Status.serving) q.currentPatientIndex.toNat
        = some Status.completed
      rw [statusAt, getElem?_updateStatus_ne _ _ _ _ hne2, hL1,
        getElem?_updateStatus_self, List.getElem?_eq_getElem hcnat]
      rfl
    · intro j hjc hjm
      show (updateStatus L1 m.toNat Status.serving)[j]? = q.patients[j]?
      rw [getElem?_updateStatus_ne _ _ _ _ (by omega), hL1,
        getElem?_updateStatus_ne _ _ _ _ (by omega)]
    · intro hlast
      have hmc : m = q.currentPatientIndex := by omega
      have hmcn : m.toNat = q.currentPatientIndex.toNat := by omega
      set q2 : Queue := { q1 with
        patients := updateStatus L1 m.toNat Status.serving,
        currentToken := some p1.tokenNo,
        currentPatientIndex := m } with hq2def
      have hq2cur : q2.currentPatientIndex = m := rfl
      have hq2len : q2.patients.length = q.patients.length := by
        show (updateStatus L1 m.toNat Status.serving).length = q.patients.length
        rw [length_updateStatus, hlen1]
      have hq2in : q2.currentPatientIndex < (q2.patients.length : Int) := by
        rw [hq2cur, hq2len]
        exact hminlt
      have hq2pos : 0 ≤ q2.currentPatientIndex := by
        rw [hq2cur]
        exact h0min
      have hstep2 : nextPatient q2 = Except.ok (advanceStep { q2 with
          patients := updateStatus q2.patients q2.currentPatientIndex.toNat
            Status.completed }) := by
        unfold nextPatient
        rw [if_pos hq2in, if_pos hq2pos]
      have hL2 : updateStatus q2.patients q2.currentPatientIndex.toNat Status.completed
          = L1 := by
        show updateStatus (updateStatus L1 m.toNat Status.serving) m.toNat Status.completed
          = L1
        rw [updateStatus_updateStatus, hmcn, hL1, updateStatus_updateStatus]
      rw [hstep2]
      have hAS2 := advanceStep_eq { q2 with
          patients := updateStatus q2.patients q2.currentPatientIndex.toNat
            Status.completed } p1 (by
        show 0 ≤ min (m + 1) (((updateStatus q2.patients q2.currentPatientIndex.toNat
            Status.completed).length : Int) - 1)
        rw [hL2, hlen1]
        omega) (by
        show (updateStatus q2.patients q2.currentPatientIndex.toNat
            Status.completed)[(min (m + 1) (((updateStatus q2.patients
            q2.currentPatientIndex.toNat Status.completed).length : Int) - 1)).toNat]?
          = some p1
        rw [hL2]
        have : min (m + 1) ((L1.length : Int) - 1) = m := by
          rw [hlen1]
          omega
        rw [this]
        exact hp1ex)
      rw [hAS2]
      show Except.ok { q with
          patients := updateStatus (updateStatus q2.patients q2.currentPatientIndex.toNat
            Status.completed) (min (m + 1) (((updateStatus q2.patients
            q2.currentPatientIndex.toNat Status.completed).length : Int) - 1)).toNat
            Status.serving,
          currentToken := some p1.tokenNo,
          currentPatientIndex := min (m + 1) (((updateStatus q2.patients
            q2.currentPatientIndex.toNat Status.completed).length : Int) - 1) }
        = Except.ok q2
      have hmin2 : min (m + 1) (((updateStatus q2.patients q2.currentPatientIndex.toNat
          Status.completed).length : Int) - 1) = m := by
        rw [hL2, hlen1]
        omega
      rw [hmin2, hL2, hq2def]
  · -- the cursor is at or beyond the length: no entry is marked completed
    have hq1 : nextPatient q = Except.ok (advanceStep q) := by
      unfold nextPatient
      rw [if_neg hin]
    have hpex : q.patients[m.toNat]? = some (q.patients.get ⟨m.toNat, hmnat⟩) := by
      rw [List.getElem?_eq_getElem, List.get_eq_getElem]
    have hAS : advanceStep q = { q with
        patients := updateStatus q.patients m.toNat Status.serving,
        currentToken := some (q.patients.get ⟨m.toNat, hmnat⟩).tokenNo,
        currentPatientIndex := m } :=
      advanceStep_eq q _ h0min hpex
    refine ⟨{ q with
        patients := updateStatus q.patients m.toNat Status.serving,
        currentToken := some (q.patients.get ⟨m.toNat, hmnat⟩).tokenNo,
        currentPatientIndex := m }, by rw [hq1, hAS], rfl,
      length_updateStatus _ _ _, ?_, ⟨q.patients.get ⟨m.toNat, hmnat⟩, hpex, rfl⟩,
      fun hmove => absurd hmove (by omega),
      fun j _ hjm => getElem?_updateStatus_ne _ _ _ _ (by omega),
      fun hlast => absurd hlast (by omega)⟩
    show statusAt (updateStatus q.patients m.toNat Status.serving) m.toNat
      = some Status.serving
    rw [statusAt, getElem?_updateStatus_self, hpex]
    rfl

/-- C5 witness: on a one-entry queue with the cursor on that entry, the
amended theorem yields a successful advance that is idempotent. -/
theorem c5_witness :
    exQueue1.patients ≠ [] ∧ (0 : Int) ≤ exQueue1.currentPatientIndex
    ∧ ∃ q', nextPatient exQueue1 = Except.ok q' ∧ nextPatient q' = Except.ok q' := by
  refine ⟨by decide, by decide, ?_⟩
  obtain ⟨q', h1, _, _, _, _, _, _, h8⟩ := c5_advance_to_next exQueue1 (by decide) (by decide)
  exact ⟨q', h1, h8 (by decide)⟩

/-- C6: the handler `completeAppointment` marks the matching entry `completed`; the
nearest later `waiting` entry (skipping completed/skipped/serving
entries) is promoted to `serving` with `currentToken` and
`currentPatientIndex` moved to it; when no waiting entry follows, nothing
is promoted, `currentToken` is unchanged, and the cursor rests on the
completed entry.  In the three-entry scenario
[T-1-1 serving, T-1-2 waiting, T-1-3 waiting], completing T-1-1's
appointment yields [completed, serving, waiting] with
`currentToken = T-1-2`.  (The code promotes whether or not the completed
entry was at `currentIndex`, which implies the claim's conditional.) -/
theorem c6_complete_by_appointment (q : Queue) (appointmentId : Nat) (i : Nat)
    (h : findIndex (fun p => decide (p.appointmentId = some appointmentId)) q.patients = some i) :
    ∃ q', completeAppointment q appointmentId = Except.ok q'
    ∧ statusAt q'.patients i = some Status.completed
    ∧ (∀ (j : Nat) (pj : QueuePatient), i < j → q.patients[j]? = some pj →
        pj.status = Status.waiting →
        (∀ (k : Nat) (pk : QueuePatient), i < k → k < j → q.patients[k]? = some pk →
          pk.status ≠ Status.waiting) →
        q'.patients = updateStatus (updateStatus q.patients i Status.completed) j Status.serving
        ∧ q'.currentToken = some pj.tokenNo
        ∧ q'.currentPatientIndex = (j : Int))
    ∧ ((∀ (j : Nat) (pj : QueuePatient), i < j → q.patients[j]? = some pj →
          pj.status ≠ Status.waiting) →
        q'.patients = updateStatus q.patients i Status.completed
        ∧ q'.currentToken = q.currentToken
        ∧ q'.currentPatientIndex = (i : Int))
    ∧ (completeAppointment
        { roomNo := "1", currentToken := some "T-1-1", currentPatientIndex := 0,
          patients :=
            [⟨some 1, "T-1-1", Status.serving, 0, ⟨0, 0⟩⟩,
             ⟨some 2, "T-1-2", Status.waiting, 1, ⟨0, 0⟩⟩,
             ⟨some 3, "T-1-3", Status.waiting, 2, ⟨0, 0⟩⟩] } 1).map
        (fun qf => (qf.patients.map QueuePatient.status, qf.currentToken, qf.currentPatientIndex))
      = Except.ok ([Status.completed, Status.serving, Status.waiting], some "T-1-2", (1 : Int)) := by
  obtain ⟨p, hp, hfp⟩ := findIndex_some_spec _ _ _ h
  unfold completeAppointment
  rw [h]
  dsimp only
  cases hm : findFromIndex (fun p => decide (p.status = Status.waiting))
      (updateStatus q.patients i Status.completed) (i + 1) with
  | some j' =>
    obtain ⟨hsj, pj', hpj', hfj'⟩ := findFromIndex_some_spec _ _ _ _ hm
    have hij' : i < j' := hsj
    have hpj'q : q.patients[j']? = some pj' := by
      rw [← getElem?_updateStatus_ne q.patients i Status.completed j' (by omega)]
      exact hpj'
    have hwj' : pj'.status = Status.waiting := by simpa using hfj'
    refine ⟨_, rfl, ?_, ?_, ?_, ?_⟩
    · rw [statusAt, getElem?_updateStatus_ne _ _ _ i (by omega),
        getElem?_updateStatus_self, hp]
      rfl
    · intro j pj hij hpj hwj hfirstj
      have hj'j : ¬ j' < j := by
        intro hlt
        exact hfirstj j' pj' hij' hlt hpj'q hwj'
      have hjj' : ¬ j < j' := by
        intro hlt
        have hps1j : (updateStatus q.patients i Status.completed)[j]? = some pj := by
          rw [getElem?_updateStatus_ne _ _ _ j (by omega)]
          exact hpj
        have := findFromIndex_first _ _ _ _ hm j pj (by omega) hlt hps1j
        rw [hwj] at this
        simp at this
      have hje : j = j' := by omega
      subst hje
      have hpe : pj' = pj := by
        rw [hpj] at hpj'q
        injection hpj'q with he
        exact he.symm
      subst hpe
      rw [hpj']
      exact ⟨rfl, rfl, rfl⟩
    · intro hno
      exact absurd hwj' (hno j' pj' hij' hpj'q)
    · rfl
  | none =>
    refine ⟨_, rfl, ?_, ?_, fun _ => ⟨rfl, rfl, rfl⟩, rfl⟩
    · rw [statusAt, getElem?_updateStatus_self, hp]
      rfl
    · intro j pj hij hpj hwj _
      have hps1j : (updateStatus q.patients i Status.completed)[j]? = some pj := by
        rw [getElem?_updateStatus_ne _ _ _ j (by omega)]
        exact hpj
      have := findFromIndex_none_spec _ _ _ hm j pj (by omega) hps1j
      rw [hwj] at this
      simp at this

/-- C6 witness: the theorem applied to the spec's three-entry scenario. -/
theorem c6_witness :
    findIndex (fun p => decide (p.appointmentId = some 1))
      [(⟨some 1, "T-1-1", Status.serving, 0, ⟨0, 0⟩⟩ : QueuePatient),
       ⟨some 2, "T-1-2", Status.waiting, 1, ⟨0, 0⟩⟩,
       ⟨some 3, "T-1-3", Status.waiting, 2, ⟨0, 0⟩⟩] = some 0
    ∧ ∃ q', completeAppointment
        { roomNo := "1", currentToken := some "T-1-1", currentPatientIndex := 0,
          patients :=
            [⟨some 1, "T-1-1", Status.serving, 0, ⟨0, 0⟩⟩,
             ⟨some 2, "T-1-2", Status.waiting, 1, ⟨0, 0⟩⟩,
             ⟨some 3, "T-1-3", Status.waiting, 2, ⟨0, 0⟩⟩] } 1 = Except.ok q'
      ∧ statusAt q'.patients 0 = some Status.completed := by
  refine ⟨rfl, ?_⟩
  obtain ⟨q', h1, h2, _⟩ := c6_complete_by_appointment
    { roomNo := "1", currentToken := some "T-1-1", currentPatientIndex := 0,
      patients :=
        [⟨some 1, "T-1-1", Status.serving, 0, ⟨0, 0⟩⟩,
         ⟨some 2, "T-1-2", Status.waiting, 1, ⟨0, 0⟩⟩,
         ⟨some 3, "T-1-3", Status.waiting, 2, ⟨0, 0⟩⟩] } 1 0 rfl
  exact ⟨q', h1, h2⟩

/-- C7 witness: removing the head of a two-entry queue promotes the new
head and publishes its token. -/
theorem c7_witness :
    findIndex (fun p => decide (p.appointmentId = some 1))
      [exEntry1, { exEntry1 with
        appointmentId := some 2,
        tokenNo := "T-1-2",
        status := Status.waiting }] = some 0
    ∧ ∃ q', removeOnDelete
        { exQueue1 with
          patients := [exEntry1, { exEntry1 with
            appointmentId := some 2,
            tokenNo := "T-1-2",
            status := Status.waiting }] } 1 = some q'
      ∧ q'.currentToken = some "T-1-2" ∧ q'.currentPatientIndex = 0 := by
  refine ⟨rfl, ?_⟩
  obtain ⟨q', h1, _, h3, _, _⟩ := c7_remove_by_appointment
    { exQueue1 with
      patients := [exEntry1, { exEntry1 with
        appointmentId := some 2,
        tokenNo := "T-1-2",
        status := Status.waiting }] } 1 0 rfl
  obtain ⟨h4, ⟨p0, hp0, h5⟩, h6⟩ := h3 rfl (by decide)
  refine ⟨q', h1, ?_, h6⟩
  have hb : p0 = { exEntry1 with
      appointmentId := some 2,
      tokenNo := "T-1-2",
      status := Status.waiting } := by
    have := hp0
    simp at this
    exact this.symm
  rw [h5, hb]

/-- C9 witness: the amended theorem applied to a one-entry queue. -/
theorem c9_amended_witness :
    0 < exQueue1.patients.length
    ∧ (midnightReset exQueue1).patients = []
    ∧ (midnightReset exQueue1).currentToken = none
    ∧ (midnightReset exQueue1).currentPatientIndex = 0 := by
  obtain ⟨h1, h2, _, _, _⟩ := c9_amended_midnight_reset exQueue1 "1" 2 ⟨0, 0⟩
  obtain ⟨h3, h4⟩ := h2 (by decide)
  exact ⟨by decide, h1, h3, h4⟩

end HSF
